import Mathlib

/-!
Shallow embedding of `pytorch_widedeep/callbacks.py`: the `History`,
`LRHistory`, `ModelCheckpoint` and `EarlyStopping` callbacks and the state
they keep on themselves and on the model object.

Conventions of the embedding:
* Python floats are modelled as rationals (`ℚ`); the sentinel values
  `np.Inf` / `-np.Inf` used for the running best are modelled by the extended
  type `XF` below, with numpy's comparison semantics on infinities.
* A `logs` dictionary is an association list `List (String × Option ℚ)`;
  `dict.get(k)` returns `none` both when the key is missing and when it is
  mapped to Python `None`.
* Model weights are a type parameter `W`; `model.state_dict()` reads the
  current `W`, `model.load_state_dict` replaces it.  Calls to
  `load_state_dict` are recorded in a trace so that the argument passed
  (including `None`) is observable.
* File-system effects of `ModelCheckpoint` are modelled by a `Disk` that
  records both the files currently present and the full sequence of write
  operations; `os.remove` with `FileNotFoundError` suppressed is a filter.
* `warnings.warn` is modelled by a boolean / flag in the return value.
-/

namespace Callbacks

/-- `l` starts with the character list `p`. -/
def charsStart (p l : List Char) : Bool :=
  match p, l with
  | [], _ => true
  | _ :: _, [] => false
  | a :: ps, b :: ls => a = b && charsStart ps ls

/-- The character list `p` occurs inside `l` (at any position). -/
def charsOccur (p : List Char) : List Char → Bool
  | [] => charsStart p []
  | b :: ls => charsStart p (b :: ls) || charsOccur p ls

/-- Python's substring test `pat in s`. -/
def strContains (s pat : String) : Bool :=
  charsOccur pat.toList s.toList

/-- Python's `s.startswith(pat)`. -/
def strStarts (s pat : String) : Bool :=
  charsStart pat.toList s.toList

/-- Python's `s.lower()` (character-wise, as used on ASCII class names). -/
def pyLower (s : String) : String :=
  String.mk (s.toList.map Char.toLower)

/-- Python's `s.split(sep)` for a one-character separator: splitting `""`
gives `[""]`, and each separator occurrence opens a new piece. -/
def pySplit (c : Char) (s : String) : List String :=
  (s.toList.foldr
    (fun x acc =>
      if x = c then [] :: acc
      else
        match acc with
        | [] => [[x]]
        | a :: as => (x :: a) :: as)
    [[]]).map (fun l => String.mk l)

/-- Extended value: a float together with the sentinels `-np.Inf` / `np.Inf`
used to initialise the running best. -/
inductive XF where
  | negInf : XF
  | fin : ℚ → XF
  | posInf : XF
  deriving DecidableEq, Repr

/-- numpy strict `<` on extended values: `-Inf < x` for every finite `x` and
for `Inf`, `Inf < x` never holds, `-Inf < -Inf` is false. -/
def XF.ltB : XF → XF → Bool
  | .negInf, .negInf => false
  | .negInf, _ => true
  | .fin _, .negInf => false
  | .fin a, .fin b => decide (a < b)
  | .fin _, .posInf => true
  | .posInf, _ => false

/-- The comparison operator selected at construction time:
`np.less` or `np.greater`. -/
inductive MOp where
  | less : MOp
  | greater : MOp
  deriving DecidableEq, Repr

/-- `self.monitor_op(a, b)`: `np.less` is `a < b`, `np.greater` is `b < a`. -/
def MOp.apply : MOp → XF → XF → Bool
  | .less, a, b => XF.ltB a b
  | .greater, a, b => XF.ltB b a

/-- A `logs` dictionary: metric name to value, a value being possibly `None`. -/
abbrev Logs := List (String × Option ℚ)

/-- `logs.get(k)`: `none` when the key is absent or mapped to `None`. -/
def logsGet (k : String) (logs : Logs) : Option ℚ :=
  match logs.lookup k with
  | some (some v) => some v
  | _ => none

/-- The model fields `EarlyStopping` interacts with: the weight state
(`state_dict()` / `load_state_dict`) and the `early_stop` flag. -/
structure ESModel (W : Type) where
  weights : W
  earlyStop : Bool
  deriving DecidableEq, Repr

/-- The state of an `EarlyStopping` instance: the constructor arguments after
normalisation (`mode` fallback, resolved `monitor_op`, sign-adjusted
`min_delta`) together with the mutable fields `wait`, `stopped_epoch`,
`state_dict` and `best`. -/
structure ESState (W : Type) where
  monitor : String
  minDelta : ℚ
  patience : ℕ
  mode : String
  baseline : Option ℚ
  restoreBestWeights : Bool
  op : MOp
  wait : ℕ
  stoppedEpoch : ℕ
  stateDict : Option W
  best : XF
  deriving DecidableEq, Repr

namespace EarlyStopping

/-- `EarlyStopping.__init__`: normalises an unknown `mode` to `"auto"` (the
returned boolean records whether the fallback warning fired), resolves the
comparison operator (`min` → less, `max` → greater, `auto` → greater iff
`"acc"` occurs in the monitor name), and sign-adjusts `min_delta`.  `best` is
not set by `__init__` in the source (it first exists after
`on_train_begin`); the embedding stores the placeholder `-Inf`. -/
def mk (W : Type) (monitor : String) (min_delta : ℚ) (patience : ℕ)
    (mode : String) (baseline : Option ℚ) (restore_best_weights : Bool) :
    ESState W × Bool :=
  let mode1 := if mode ∈ (["auto", "min", "max"] : List String) then mode else "auto"
  let op : MOp :=
    if mode1 = "min" then .less
    else if mode1 = "max" then .greater
    else if strContains monitor "acc" then .greater else .less
  let d := if op = .greater then min_delta * 1 else min_delta * (-1)
  ({ monitor := monitor, minDelta := d, patience := patience, mode := mode1,
     baseline := baseline, restoreBestWeights := restore_best_weights,
     op := op, wait := 0, stoppedEpoch := 0, stateDict := none,
     best := .negInf }, decide (mode ∉ (["auto", "min", "max"] : List String)))

/-- `EarlyStopping.on_train_begin`: reset `wait` and `stopped_epoch`, set
`best` to the baseline when given, otherwise to the worst value for the
configured direction. -/
def on_train_begin {W : Type} (es : ESState W) : ESState W :=
  { es with
    wait := 0
    stoppedEpoch := 0
    best :=
      match es.baseline with
      | some b => .fin b
      | none => if es.op = .less then .posInf else .negInf }

/-- `EarlyStopping.get_monitor_value`: `logs.get(self.monitor)`, warning when
the result is `None`.  The returned flag records whether the warning fired. -/
def get_monitor_value {W : Type} (es : ESState W) (logs : Logs) :
    Option ℚ × Bool :=
  match logsGet es.monitor logs with
  | some v => (some v, false)
  | none => (none, true)

/-- Observable outcome of one `EarlyStopping.on_epoch_end` call: the updated
callback state, the updated model, the sequence of arguments passed to
`model.load_state_dict` during the call (the source may pass `None` here),
and whether a warning fired. -/
structure Step (W : Type) where
  es : ESState W
  model : ESModel W
  loads : List (Option W)
  warned : Bool
  deriving DecidableEq, Repr

/-- `EarlyStopping.on_epoch_end`.  When the monitored value is missing the
call warns and returns with nothing changed.  Otherwise, on improvement
(`monitor_op(current - min_delta, best)`) it updates `best`, zeroes `wait`
and (when restoring) snapshots the weights; on non-improvement it bumps
`wait` and, once `wait` reaches `patience`, records the stopping epoch, sets
the model's `early_stop` flag and (when restoring) calls
`model.load_state_dict(self.state_dict)` — with `self.state_dict` possibly
still `None`, which the trace records; the weight state is replaced only
when the argument is an actual snapshot. -/
def on_epoch_end {W : Type} (es : ESState W) (m : ESModel W) (epoch : ℕ)
    (logs : Logs) : Step W :=
  match get_monitor_value es logs with
  | (none, _) => ⟨es, m, [], true⟩
  | (some current, _) =>
    if es.op.apply (.fin (current - es.minDelta)) es.best then
      ⟨{ es with
          best := .fin current
          wait := 0
          stateDict :=
            if es.restoreBestWeights then some m.weights else es.stateDict },
        m, [], false⟩
    else
      let wait1 := es.wait + 1
      if es.patience ≤ wait1 then
        let es1 := { es with wait := wait1, stoppedEpoch := epoch }
        let m1 := { m with earlyStop := true }
        if es.restoreBestWeights then
          ⟨es1,
            { m1 with
              weights :=
                match es.stateDict with
                | some w => w
                | none => m1.weights },
            [es.stateDict], false⟩
        else ⟨es1, m1, [], false⟩
      else ⟨{ es with wait := wait1 }, m, [], false⟩

/-- Drive `EarlyStopping` through a training run: each epoch the training
loop first updates the model weights (the epoch's training), then calls
`on_epoch_end` with that epoch's logs.  The loop polls the `early_stop` flag
and halts once it is set.  Returns the final callback state, the final model
and the concatenated `load_state_dict` call trace. -/
def drive {W : Type} (es : ESState W) (m : ESModel W) (i : ℕ) :
    List (Logs × W) → ESState W × ESModel W × List (Option W)
  | [] => (es, m, [])
  | (lg, w) :: rest =>
    if m.earlyStop then (es, m, [])
    else
      let r := on_epoch_end es { m with weights := w } i lg
      let out := drive r.es r.model (i + 1) rest
      (out.1, out.2.1, r.loads ++ out.2.2)

end EarlyStopping

/-- The model fields the `History` callback writes: the `epoch` index list
and the `history` mapping from metric name to recorded values.  `History`
epoch logs carry plain float values, so the per-hook logs here are
`List (String × ℚ)` (Python dict: keys unique, iterated in order). -/
structure HModel where
  epoch : List ℕ
  history : String → List ℚ

namespace History

/-- `self.model.history.setdefault(k, []).append(v)` folded over a logs
dict: append each value to its key's sequence, creating it when absent. -/
def appendLogs (h : String → List ℚ) (logs : List (String × ℚ)) :
    String → List ℚ :=
  logs.foldl (fun h kv => fun k => if k = kv.1 then h k ++ [kv.2] else h k) h

/-- `History.on_train_begin`: reset the model's epoch list and history. -/
def on_train_begin (_m : HModel) : HModel :=
  { epoch := [], history := fun _ => [] }

/-- `History.on_epoch_begin`: record every log entry (the source deep-copies
the logs first; in the pure embedding the copy is the identity). -/
def on_epoch_begin (_epoch : ℕ) (logs : List (String × ℚ)) (m : HModel) :
    HModel :=
  { m with history := appendLogs m.history logs }

/-- `History.on_epoch_end`: append the epoch index, then record every log
entry again. -/
def on_epoch_end (epoch : ℕ) (logs : List (String × ℚ)) (m : HModel) :
    HModel :=
  { m with
    epoch := m.epoch ++ [epoch]
    history := appendLogs m.history logs }

/-- Run epochs `i, i+1, …`: each epoch's logs mapping is supplied to both
`on_epoch_begin` and `on_epoch_end` of that epoch. -/
def runEpochs (m : HModel) (i : ℕ) :
    List (List (String × ℚ)) → HModel
  | [] => m
  | lg :: rest => runEpochs (on_epoch_end i lg (on_epoch_begin i lg m)) (i + 1) rest

/-- A full `History` session: `on_train_begin` then epochs `0 … N-1`. -/
def drive (m : HModel) (ls : List (List (String × ℚ))) : HModel :=
  runEpochs (on_train_begin m) 0 ls

end History

/-- File-system model for `ModelCheckpoint`: the files currently present and
the full sequence of `torch.save` targets in order. -/
structure Disk where
  present : List String
  writes : List String
  deriving DecidableEq, Repr

/-- `torch.save(..., fp)`: record the write; the file is now present (a
rewrite of an existing name keeps one entry). -/
def Disk.write (d : Disk) (fp : String) : Disk :=
  { present := if d.present.contains fp then d.present else d.present ++ [fp]
    writes := d.writes ++ [fp] }

/-- `os.remove(fp)` with `FileNotFoundError` suppressed: drop the file if
present, no-op otherwise. -/
def Disk.remove (d : Disk) (fp : String) : Disk :=
  { d with present := d.present.filter (fun f => f ≠ fp) }

/-- The state of a `ModelCheckpoint` instance after construction: the stored
arguments (with `mode` already normalised), the resolved comparison operator
and initial best, the save-cadence counter and the retention list. -/
structure MCState where
  filepath : String
  monitor : String
  saveBestOnly : Bool
  mode : String
  period : ℕ
  maxSave : ℤ
  epochsSinceLastSave : ℕ
  op : MOp
  best : XF
  oldFiles : List String
  deriving DecidableEq, Repr

namespace ModelCheckpoint

/-- `ModelCheckpoint.__init__`.  Raises `ValueError` when the filepath has no
directory segment (`len(filepath.split("/")[:-1]) == 0`).  An unknown `mode`
warns (the returned flag) and falls back to `"auto"`; `min`/`max` fix the
operator and initial best, `auto` infers them from the monitor name
(`"acc"` substring or `fmeasure` prefix → greater / `-Inf`).  The
`os.makedirs` side effect on the host file system is not modelled. -/
def mk (filepath monitor : String) (save_best_only : Bool) (mode : String)
    (period : ℕ) (max_save : ℤ) : Except String (MCState × Bool) :=
  if ((pySplit '/' filepath).dropLast).length = 0 then
    .error "filepath must be the full path to save the output weights"
  else
    let mode1 := if mode ∈ (["auto", "min", "max"] : List String) then mode else "auto"
    let opBest : MOp × XF :=
      if mode1 = "min" then (.less, .posInf)
      else if mode1 = "max" then (.greater, .negInf)
      else if strContains monitor "acc" || strStarts monitor "fmeasure" then
        (.greater, .negInf)
      else (.less, .posInf)
    .ok ({ filepath := filepath, monitor := monitor,
           saveBestOnly := save_best_only, mode := mode1, period := period,
           maxSave := max_save, epochsSinceLastSave := 0, op := opBest.1,
           best := opBest.2, oldFiles := [] },
         decide (mode ∉ (["auto", "min", "max"] : List String)))

/-- The retention step shared by both save paths: when `max_save > 0` and the
retained list is full, delete the oldest file and drop it from the list, then
record the new file. -/
def retain (mc : MCState) (d : Disk) (fp : String) : MCState × Disk :=
  if 0 < mc.maxSave then
    if (mc.oldFiles.length : ℤ) = mc.maxSave then
      ({ mc with oldFiles := mc.oldFiles.tail ++ [fp] },
        d.remove (mc.oldFiles.headD ""))
    else ({ mc with oldFiles := mc.oldFiles ++ [fp] }, d)
  else (mc, d)

/-- `ModelCheckpoint.on_epoch_end`: bump the cadence counter; on a cadence
hit reset it and build the candidate path `"<filepath>_<epoch+1>.p"`.  With
`save_best_only`, a missing monitored value warns and skips; an improving
value updates `best`, writes the snapshot and applies retention; a
non-improving value does nothing.  Without `save_best_only` every cadence
hit writes and applies retention.  The returned flag is the warning. -/
def on_epoch_end (mc : MCState) (d : Disk) (epoch : ℕ) (logs : Logs) :
    MCState × Disk × Bool :=
  let n := mc.epochsSinceLastSave + 1
  if mc.period ≤ n then
    let mc1 := { mc with epochsSinceLastSave := 0 }
    let fp := mc1.filepath ++ "_" ++ toString (epoch + 1) ++ ".p"
    if mc1.saveBestOnly then
      match logsGet mc1.monitor logs with
      | none => (mc1, d, true)
      | some current =>
        if mc1.op.apply (.fin current) mc1.best then
          let mc2 := { mc1 with best := .fin current }
          let r := retain mc2 (d.write fp) fp
          (r.1, r.2, false)
        else (mc1, d, false)
    else
      let r := retain mc1 (d.write fp) fp
      (r.1, r.2, false)
  else ({ mc with epochsSinceLastSave := n }, d, false)

/-- Drive `ModelCheckpoint` through epochs `i, i+1, …` with one logs mapping
per epoch. -/
def drive (mc : MCState) (d : Disk) (i : ℕ) : List Logs → MCState × Disk
  | [] => (mc, d)
  | lg :: rest =>
    let r := on_epoch_end mc d i lg
    drive r.1 r.2.1 (i + 1) rest

end ModelCheckpoint

/-- The model fields `LRHistory` reads and writes.  `lr_scheduler` is either
absent or carries a class name; `optimizer.param_groups` is the list of the
groups' current learning rates; for a `MultipleLRScheduler` the optimizer
holds named sub-optimizers (`_optimizers`) and the scheduler named
sub-schedulers (`_schedulers`, name to class name).  `lr_history` is the
mapping the callback maintains on the model. -/
structure LRModel where
  schedulerPresent : Bool
  schedulerName : String
  cyclicLr : Bool
  paramGroups : List ℚ
  subOptimizers : List (String × List ℚ)
  subSchedulers : List (String × String)
  lrHistory : String → List ℚ

namespace LRHistory

/-- `LRHistory._multiple_scheduler`: class-name check. -/
def multipleScheduler (m : LRModel) : Bool :=
  m.schedulerName = "MultipleLRScheduler"

/-- `LRHistory._has_scheduler`: membership in `lr_scheduler._schedulers`. -/
def hasScheduler (m : LRModel) (name : String) : Bool :=
  (m.subSchedulers.lookup name).isSome

/-- `LRHistory._is_cyclic`: the named sub-scheduler exists and its lowered
class name contains `"cycl"`. -/
def isCyclic (m : LRModel) (name : String) : Bool :=
  hasScheduler m name &&
    strContains (pyLower ((m.subSchedulers.lookup name).getD "")) "cycl"

/-- The synthesized history key for a parameter group: `lr_<idx>`, or
`lr_<name>_<idx>` for a named sub-optimizer. -/
def groupKey (name : Option String) (idx : ℕ) : String :=
  match name with
  | none => "lr" ++ "_" ++ toString idx
  | some n => "lr" ++ "_" ++ n ++ "_" ++ toString idx

/-- `LRHistory._save_group_lr`: append each group's current learning rate to
its key's sequence in `lr_history`. -/
def saveGroupLr (h : String → List ℚ) (groups : List ℚ)
    (name : Option String) : String → List ℚ :=
  (groups.enum).foldl
    (fun h p => fun k => if k = groupKey name p.1 then h k ++ [p.2] else h k) h

/-- `LRHistory._save_group_lr_mulitple_scheduler`: record the sub-optimizers
selected by the step location (`on_epoch_begin` all, `on_batch_end` the
cyclic ones, `on_epoch_end` the non-cyclic ones). -/
def saveGroupLrMultiple (m : LRModel) (loc : String) : String → List ℚ :=
  m.subOptimizers.foldl
    (fun h o =>
      if loc = "on_epoch_begin" then saveGroupLr h o.2 (some o.1)
      else if loc = "on_batch_end" then
        if isCyclic m o.1 then saveGroupLr h o.2 (some o.1) else h
      else if loc = "on_epoch_end" then
        if isCyclic m o.1 then h else saveGroupLr h o.2 (some o.1)
      else h)
    m.lrHistory

/-- `LRHistory.on_epoch_begin`: only at epoch 0 with a scheduler present,
reset `lr_history` then record (all sub-optimizers for a multiple scheduler;
the single optimizer for a single non-cyclic scheduler). -/
def on_epoch_begin (epoch : ℕ) (m : LRModel) : LRModel :=
  if epoch = 0 && m.schedulerPresent then
    let m1 := { m with lrHistory := fun _ => [] }
    if multipleScheduler m1 then
      { m1 with lrHistory := saveGroupLrMultiple m1 "on_epoch_begin" }
    else if !m1.cyclicLr then
      { m1 with lrHistory := saveGroupLr m1.lrHistory m1.paramGroups none }
    else m1
  else m

/-- `LRHistory.on_batch_end`: with a scheduler present, record the cyclic
sub-optimizers (multiple) or the single optimizer when `cyclic_lr`. -/
def on_batch_end (m : LRModel) : LRModel :=
  if m.schedulerPresent then
    if multipleScheduler m then
      { m with lrHistory := saveGroupLrMultiple m "on_batch_end" }
    else if m.cyclicLr then
      { m with lrHistory := saveGroupLr m.lrHistory m.paramGroups none }
    else m
  else m

/-- `LRHistory.on_epoch_end`: except at the final epoch
(`epoch != n_epochs - 1`, Python integer arithmetic), with a scheduler
present, record the non-cyclic sub-optimizers (multiple) or the single
optimizer when not `cyclic_lr`. -/
def on_epoch_end (n_epochs : ℕ) (epoch : ℕ) (m : LRModel) : LRModel :=
  if (epoch : ℤ) ≠ (n_epochs : ℤ) - 1 && m.schedulerPresent then
    if multipleScheduler m then
      { m with lrHistory := saveGroupLrMultiple m "on_epoch_end" }
    else if !m.cyclicLr then
      { m with lrHistory := saveGroupLr m.lrHistory m.paramGroups none }
    else m
  else m

/-- `b` consecutive `on_batch_end` calls. -/
def runBatches : ℕ → LRModel → LRModel
  | 0, m => m
  | b + 1, m => runBatches b (on_batch_end m)

/-- Drive `LRHistory` (constructed with `n_epochs`) from epoch `i`: each
entry of `bs` is one epoch's number of batches; the epoch runs
`on_epoch_begin`, the batch ends, then `on_epoch_end`. -/
def drive (n_epochs : ℕ) (i : ℕ) (m : LRModel) : List ℕ → LRModel
  | [] => m
  | b :: rest =>
    drive n_epochs (i + 1)
      (on_epoch_end n_epochs i (runBatches b (on_epoch_begin i m))) rest

end LRHistory

/-! Concrete training scenarios used by the theorems below.  Weight states
are natural numbers (`W := ℕ`): one `ℕ` per distinct weight configuration. -/

/-- A logs dictionary carrying only the default monitored metric. -/
def valLogs (v : ℚ) : Logs := [("val_loss", some v)]

/-- `EarlyStopping(patience=2, min_delta=0, mode="min")`. -/
def esPat2 : ESState ℕ :=
  (EarlyStopping.mk ℕ "val_loss" 0 2 "min" none false).1

/-- The `esPat2` instance driven through four epochs whose monitored values
are `[1, 1, 1, 1]`. -/
def esPat2Run : ESState ℕ × ESModel ℕ × List (Option ℕ) :=
  EarlyStopping.drive (EarlyStopping.on_train_begin esPat2) ⟨0, false⟩ 0
    [(valLogs 1, 0), (valLogs 1, 0), (valLogs 1, 0), (valLogs 1, 0)]

/-- The `esPat2` instance driven through the first two epochs only. -/
def esPat2RunTwo : ESState ℕ × ESModel ℕ × List (Option ℕ) :=
  EarlyStopping.drive (EarlyStopping.on_train_begin esPat2) ⟨0, false⟩ 0
    [(valLogs 1, 0), (valLogs 1, 0)]

/-- `EarlyStopping(patience=10, mode="min", restore_best_weights=True)`. -/
def esRestore : ESState ℕ :=
  (EarlyStopping.mk ℕ "val_loss" 0 10 "min" none true).1

/-- The `esRestore` instance driven through two epochs: values `[1, 2]`,
weights `0` then `1`.  The best epoch is epoch 0 but patience never fires. -/
def esRestoreRun : ESState ℕ × ESModel ℕ × List (Option ℕ) :=
  EarlyStopping.drive (EarlyStopping.on_train_begin esRestore) ⟨5, false⟩ 0
    [(valLogs 1, 0), (valLogs 2, 1)]

/-- `EarlyStopping(patience=1, mode="min", baseline=0,
restore_best_weights=True)`: no epoch can improve on the baseline. -/
def esBaseline : ESState ℕ :=
  (EarlyStopping.mk ℕ "val_loss" 0 1 "min" (some 0) true).1

/-- The `esBaseline` instance driven through one epoch with value `1`. -/
def esBaselineRun : ESState ℕ × ESModel ℕ × List (Option ℕ) :=
  EarlyStopping.drive (EarlyStopping.on_train_begin esBaseline) ⟨7, false⟩ 0
    [(valLogs 1, 3)]

/-- The state `ModelCheckpoint("out/w", save_best_only=True, mode="min",
period=1, max_save=-1)` is constructed with. -/
def mcBest : MCState :=
  { filepath := "out/w", monitor := "val_loss", saveBestOnly := true,
    mode := "min", period := 1, maxSave := -1, epochsSinceLastSave := 0,
    op := .less, best := .posInf, oldFiles := [] }

/-- `mcBest` driven through four epochs with monitored values
`[5, 3, 4, 2]` against an empty disk. -/
def mcBestRun : MCState × Disk :=
  ModelCheckpoint.drive mcBest ⟨[], []⟩ 0
    [valLogs 5, valLogs 3, valLogs 4, valLogs 2]

/-- The state `ModelCheckpoint("out2/w", save_best_only=True, mode="min",
period=1, max_save=2)` is constructed with. -/
def mcMax2 : MCState :=
  { filepath := "out2/w", monitor := "val_loss", saveBestOnly := true,
    mode := "min", period := 1, maxSave := 2, epochsSinceLastSave := 0,
    op := .less, best := .posInf, oldFiles := [] }

/-- `mcMax2` driven through three improving epochs (`[3, 2, 1]`), so three
qualifying saves happen. -/
def mcMax2Run : MCState × Disk :=
  ModelCheckpoint.drive mcMax2 ⟨[], []⟩ 0 [valLogs 3, valLogs 2, valLogs 1]

/-- `EarlyStopping(patience=1, mode="min", restore_best_weights=True)`. -/
def esRestoreP1 : ESState ℕ :=
  (EarlyStopping.mk ℕ "val_loss" 0 1 "min" none true).1

/-- The `esRestoreP1` instance driven through two epochs: epoch 0 improves
(snapshot of weights `0`), epoch 1 does not, firing the patience trigger. -/
def esRestoreP1Run : ESState ℕ × ESModel ℕ × List (Option ℕ) :=
  EarlyStopping.drive (EarlyStopping.on_train_begin esRestoreP1) ⟨5, false⟩ 0
    [(valLogs 1, 0), (valLogs 2, 1)]

/-- The state `ModelCheckpoint("a/b", monitor="val_acc", mode="bogus")`
construction produces: the unknown mode has fallen back to `auto`, and the
`acc` substring of the monitor selects the greater-is-better direction. -/
def mcBogus : MCState :=
  { filepath := "a/b", monitor := "val_acc", saveBestOnly := true,
    mode := "auto", period := 1, maxSave := -1, epochsSinceLastSave := 0,
    op := .greater, best := .negInf, oldFiles := [] }

/-- Two epochs of `History` logs: `loss` appears in both, `acc` in one. -/
def twoEpochLogs : List (List (String × ℚ)) :=
  [[("loss", 1)], [("loss", 2), ("acc", 3)]]

/-- How many parameter groups of an optimizer produce the history key `k`
(`_save_group_lr` appends one value per matching group). -/
def gcount (groups : List ℚ) (k : String) : ℕ :=
  (groups.enum).countP fun p => decide (k = LRHistory.groupKey none p.1)

/-- Modelled from the spec: the `WideDeep` model object (outside this file)
exposes the `cyclic_lr` flag the single-scheduler paths of `LRHistory` read;
per the spec a single scheduler is cyclic exactly when its class name
contains the marker `"cycl"` case-insensitively, so the flag is set from the
scheduler's class name. -/
def cyclicFlag (schedulerName : String) : Bool :=
  strContains (pyLower schedulerName) "cycl"

/-- A model with a single `StepLR` (non-cyclic) scheduler and two parameter
groups. -/
def lrStep : LRModel :=
  { schedulerPresent := true, schedulerName := "StepLR", cyclicLr := false,
    paramGroups := [1/10, 1/100], subOptimizers := [], subSchedulers := [],
    lrHistory := fun _ => [] }

/-- A model with a single `CyclicLR` scheduler and one parameter group. -/
def lrCyc : LRModel :=
  { schedulerPresent := true, schedulerName := "CyclicLR", cyclicLr := true,
    paramGroups := [1/10], subOptimizers := [], subSchedulers := [],
    lrHistory := fun _ => [] }

/-! Theorems. -/

/-- C1: `EarlyStopping(patience=2, min_delta=0, mode="min")` driven by
`on_train_begin` and `on_epoch_end` for epochs `0..3` with monitored values
`[1, 1, 1, 1]` sets the model's early-stop flag at epoch index 2: the first
value sets `best := 1`, the next two non-improving epochs raise `wait` to 2,
reaching the patience; after only the first two epochs the flag is still
unset. -/
theorem earlyStopping_patience_two_stops_at_epoch_two :
    esPat2Run.2.1.earlyStop = true ∧ esPat2Run.1.stoppedEpoch = 2 ∧
      esPat2Run.1.wait = 2 ∧ esPat2Run.1.best = .fin 1 ∧
      esPat2RunTwo.2.1.earlyStop = false ∧ esPat2RunTwo.1.wait = 1 := by
  norm_num [esPat2Run, esPat2RunTwo, esPat2, EarlyStopping.drive,
    EarlyStopping.on_train_begin, EarlyStopping.on_epoch_end,
    EarlyStopping.get_monitor_value, EarlyStopping.mk, logsGet, valLogs,
    XF.ltB, MOp.apply]

/-- C2: `ModelCheckpoint(save_best_only=True, mode="min", period=1)` driven
for four epochs with monitored values `[5, 3, 4, 2]` persists the weights
exactly at (1-based) epochs 1, 2 and 4 — three snapshot files — because
`best` starts at `+Inf`, improves at 5 and 3, stalls at 4 and improves at
2. -/
theorem modelCheckpoint_save_best_only_writes_epochs_1_2_4 :
    ModelCheckpoint.mk "out/w" "val_loss" true "min" 1 (-1) =
        .ok (mcBest, false) ∧
      mcBestRun.2.writes = ["out/w_1.p", "out/w_2.p", "out/w_4.p"] ∧
      mcBestRun.1.best = .fin 2 :=
  ⟨rfl, by decide, by decide⟩

/-- C10: with `restore_best_weights=True` and a baseline no epoch improves
on, the patience trigger fires before any snapshot was taken and
`model.load_state_dict` is invoked with `None` (the initial value of the
snapshot field): the recorded load-call trace of the run is `[none]`. -/
theorem earlyStopping_load_state_dict_with_none :
    esBaselineRun.2.2 = [none] ∧ esBaselineRun.2.1.earlyStop = true ∧
      esBaselineRun.1.stateDict = none := by
  norm_num [esBaselineRun, esBaseline, EarlyStopping.drive,
    EarlyStopping.on_train_begin, EarlyStopping.on_epoch_end,
    EarlyStopping.get_monitor_value, EarlyStopping.mk, logsGet, valLogs,
    XF.ltB, MOp.apply]

/-- C9 counterexample: `EarlyStopping(mode="min", patience=10,
restore_best_weights=True)` driven over monitored values `[1, 2]` with
weights `0` then `1`: the best epoch is epoch 0 with snapshot `0`, but the
patience trigger never fires, so the model ends with the final epoch's
weights `1`, not the snapshot. -/
theorem earlyStopping_restore_not_applied_without_stop :
    esRestoreRun.1.stateDict = some 0 ∧ esRestoreRun.2.1.weights = 1 ∧
      esRestoreRun.2.1.earlyStop = false ∧ (1 : ℕ) ≠ 0 := by
  norm_num [esRestoreRun, esRestore, EarlyStopping.drive,
    EarlyStopping.on_train_begin, EarlyStopping.on_epoch_end,
    EarlyStopping.get_monitor_value, EarlyStopping.mk, logsGet, valLogs,
    XF.ltB, MOp.apply]

/-- `retain` keeps the retained-files list within the cap and does not
touch `max_save`. -/
theorem retain_oldFiles_le (mc : MCState) (d : Disk) (fp : String)
    (h : (mc.oldFiles.length : ℤ) ≤ mc.maxSave) :
    ((ModelCheckpoint.retain mc d fp).1.oldFiles.length : ℤ) ≤ mc.maxSave ∧
      (ModelCheckpoint.retain mc d fp).1.maxSave = mc.maxSave := by
  unfold ModelCheckpoint.retain
  split_ifs with h1 h2
  · refine ⟨?_, rfl⟩
    have ht : mc.oldFiles.tail.length = mc.oldFiles.length - 1 :=
      List.length_tail _
    simp only [List.length_append, List.length_cons, List.length_nil, ht]
    omega
  · refine ⟨?_, rfl⟩
    simp only [List.length_append, List.length_cons, List.length_nil]
    omega
  · exact ⟨h, rfl⟩

/-- One `ModelCheckpoint.on_epoch_end` call keeps the retained-files list
within the cap and does not touch `max_save`. -/
theorem on_epoch_end_oldFiles_le (mc : MCState) (d : Disk) (i : ℕ)
    (lg : Logs) (h : (mc.oldFiles.length : ℤ) ≤ mc.maxSave) :
    ((ModelCheckpoint.on_epoch_end mc d i lg).1.oldFiles.length : ℤ)
        ≤ mc.maxSave ∧
      (ModelCheckpoint.on_epoch_end mc d i lg).1.maxSave = mc.maxSave := by
  unfold ModelCheckpoint.on_epoch_end
  dsimp only
  split
  · split
    · split
      · exact ⟨h, rfl⟩
      · split
        · exact retain_oldFiles_le _ _ _ h
        · exact ⟨h, rfl⟩
    · exact retain_oldFiles_le _ _ _ h
  · exact ⟨h, rfl⟩

/-- Driving `ModelCheckpoint` keeps the retained-files list within the
cap. -/
theorem drive_oldFiles_le (ls : List Logs) :
    ∀ (mc : MCState) (d : Disk) (i : ℕ),
      (mc.oldFiles.length : ℤ) ≤ mc.maxSave →
      ((ModelCheckpoint.drive mc d i ls).1.oldFiles.length : ℤ) ≤
        mc.maxSave := by
  induction ls with
  | nil => intro mc d i h; exact h
  | cons lg rest ih =>
    intro mc d i h
    have hs := on_epoch_end_oldFiles_le mc d i lg h
    have hr := ih (ModelCheckpoint.on_epoch_end mc d i lg).1
      (ModelCheckpoint.on_epoch_end mc d i lg).2.1 (i + 1) (by rw [hs.2]; exact hs.1)
    rw [hs.2] at hr
    exact hr

/-- C6: `ModelCheckpoint(max_save=2, save_best_only=True, mode="min")` over
three improving epochs writes three snapshots but only the two newest remain
on disk and in the retained-files list — the oldest, `out2/w_1.p`, was
deleted; and for any `max_save = m > 0` state whose retained list is within
the cap, the list never exceeds `m` entries under any further driving. -/
theorem modelCheckpoint_max_save_retention :
    (ModelCheckpoint.mk "out2/w" "val_loss" true "min" 1 2 =
          .ok (mcMax2, false) ∧
        mcMax2Run.2.writes = ["out2/w_1.p", "out2/w_2.p", "out2/w_3.p"] ∧
        mcMax2Run.2.present = ["out2/w_2.p", "out2/w_3.p"] ∧
        mcMax2Run.1.oldFiles = ["out2/w_2.p", "out2/w_3.p"]) ∧
      ∀ (mc : MCState) (d : Disk) (i : ℕ) (ls : List Logs),
        0 < mc.maxSave → (mc.oldFiles.length : ℤ) ≤ mc.maxSave →
        ((ModelCheckpoint.drive mc d i ls).1.oldFiles.length : ℤ) ≤
          mc.maxSave :=
  ⟨⟨rfl, by decide, by decide, by decide⟩,
    fun mc d i ls _ h => drive_oldFiles_le ls mc d i h⟩

/-- Witness for C6: the cap bound instantiated at the concrete `max_save=2`
run. -/
theorem modelCheckpoint_max_save_retention_witness :
    ((ModelCheckpoint.drive mcMax2 ⟨[], []⟩ 0
        [valLogs 3, valLogs 2, valLogs 1]).1.oldFiles.length : ℤ) ≤ 2 :=
  modelCheckpoint_max_save_retention.2 mcMax2 ⟨[], []⟩ 0
    [valLogs 3, valLogs 2, valLogs 1] (by decide) (by decide)

/-- C7: `ModelCheckpoint` construction fails if and only if the filepath has
no directory segment (`filepath.split("/")[:-1]` empty); a mode outside
`{'auto','min','max'}` does not raise: construction completes with the
warning flag set, the mode fallen back to `auto`, and the comparison
direction inferred from the monitored metric's name (`acc` substring or
`fmeasure` prefix selects greater-is-better). -/
theorem modelCheckpoint_construction_error_iff :
    ∀ (filepath monitor : String) (sbo : Bool) (mode : String) (period : ℕ)
      (max_save : ℤ),
      ((ModelCheckpoint.mk filepath monitor sbo mode period max_save).isOk ↔
        ((pySplit '/' filepath).dropLast).length ≠ 0) ∧
      (mode ∉ (["auto", "min", "max"] : List String) →
        ∀ mc warned,
          ModelCheckpoint.mk filepath monitor sbo mode period max_save =
            .ok (mc, warned) →
          warned = true ∧ mc.mode = "auto" ∧
          mc.op = (if strContains monitor "acc" || strStarts monitor "fmeasure"
                   then MOp.greater else MOp.less)) := by
  intro fp monitor sbo mode period ms
  constructor
  · by_cases h : ((pySplit '/' fp).dropLast).length = 0
    · rw [ModelCheckpoint.mk, if_pos h]
      simp [h, Except.isOk, Except.toBool]
    · rw [ModelCheckpoint.mk, if_neg h]
      simp only [List.length_dropLast] at h
      simp [h, Except.isOk, Except.toBool]
  · intro hmode mc w hok
    by_cases h : ((pySplit '/' fp).dropLast).length = 0
    · rw [ModelCheckpoint.mk, if_pos h] at hok
      simp at hok
    · rw [ModelCheckpoint.mk, if_neg h] at hok
      dsimp only at hok
      rw [if_neg hmode] at hok
      by_cases hacc :
          (strContains monitor "acc" || strStarts monitor "fmeasure") = true
      · simp only [hacc, reduceIte] at hok
        rw [Except.ok.injEq, Prod.mk.injEq] at hok
        obtain ⟨hmc, hw⟩ := hok
        rw [← hw, ← hmc]
        refine ⟨decide_eq_true hmode, rfl, ?_⟩
        simp [hacc]
      · simp only [hacc, reduceIte] at hok
        rw [Except.ok.injEq, Prod.mk.injEq] at hok
        obtain ⟨hmc, hw⟩ := hok
        rw [← hw, ← hmc]
        refine ⟨decide_eq_true hmode, rfl, ?_⟩
        simp [hacc]

/-- Witness for C7: `ModelCheckpoint("a/b", monitor="val_acc",
mode="bogus")` completes with the warning flag set, mode `auto`, and the
greater-is-better direction inferred from `val_acc`. -/
theorem modelCheckpoint_construction_error_iff_witness :
    true = true ∧ mcBogus.mode = "auto" ∧
      mcBogus.op =
        (if strContains "val_acc" "acc" || strStarts "val_acc" "fmeasure"
         then MOp.greater else MOp.less) :=
  (modelCheckpoint_construction_error_iff "a/b" "val_acc" true "bogus" 1
    (-1)).2 (by decide) mcBogus true rfl

/-- C8: when `on_epoch_end` is called with a logs mapping lacking the
monitored key (or mapping it to `None`), the call warns and returns with the
callback state, the model's weights and early-stop flag all unchanged, and
`load_state_dict` is never invoked. -/
theorem earlyStopping_missing_monitor_no_change :
    ∀ (W : Type) (es : ESState W) (m : ESModel W) (epoch : ℕ) (logs : Logs),
      logsGet es.monitor logs = none →
      EarlyStopping.on_epoch_end es m epoch logs =
        { es := es, model := m, loads := [], warned := true } := by
  intro W es m epoch logs h
  simp [EarlyStopping.on_epoch_end, EarlyStopping.get_monitor_value, h]

/-- Witness for C8: the `esPat2` state with a logs mapping whose monitored
key is mapped to `None`. -/
theorem earlyStopping_missing_monitor_no_change_witness :
    EarlyStopping.on_epoch_end esPat2 ⟨0, false⟩ 0 [("val_loss", none)] =
      { es := esPat2, model := ⟨0, false⟩, loads := [], warned := true } :=
  earlyStopping_missing_monitor_no_change ℕ esPat2 ⟨0, false⟩ 0
    [("val_loss", none)] (by decide)

/-- Once the model's `early_stop` flag is set the training loop halts:
driving performs no further calls. -/
theorem drive_of_stopped {W : Type} (es : ESState W) (m : ESModel W) (i : ℕ)
    (l : List (Logs × W)) (h : m.earlyStop = true) :
    EarlyStopping.drive es m i l = (es, m, []) := by
  cases l with
  | nil => rfl
  | cons a rest => simp [EarlyStopping.drive, h]

/-- `on_epoch_end` never changes `restore_best_weights`. -/
theorem on_epoch_end_restore_eq {W : Type} (es : ESState W) (m : ESModel W)
    (i : ℕ) (lg : Logs) :
    ((EarlyStopping.on_epoch_end es m i lg).es).restoreBestWeights =
      es.restoreBestWeights := by
  rcases hget : EarlyStopping.get_monitor_value es lg with ⟨v, b⟩
  cases v with
  | none => simp only [EarlyStopping.on_epoch_end, hget]
  | some c =>
    simp only [EarlyStopping.on_epoch_end, hget]
    split_ifs <;> rfl

/-- When one `on_epoch_end` call with restoring enabled sets the early-stop
flag, it leaves the snapshot untouched and, when a snapshot exists, loads it
into the model. -/
theorem on_epoch_end_stop_restores {W : Type} (es : ESState W)
    (m : ESModel W) (i : ℕ) (lg : Logs)
    (hr : es.restoreBestWeights = true) (hm : m.earlyStop = false)
    (hstop : (EarlyStopping.on_epoch_end es m i lg).model.earlyStop = true) :
    (EarlyStopping.on_epoch_end es m i lg).es.stateDict = es.stateDict ∧
      ∀ w, es.stateDict = some w →
        (EarlyStopping.on_epoch_end es m i lg).model.weights = w := by
  rcases hget : EarlyStopping.get_monitor_value es lg with ⟨v, b⟩
  cases v with
  | none =>
    simp only [EarlyStopping.on_epoch_end, hget] at hstop
    rw [hm] at hstop
    exact Bool.noConfusion hstop
  | some c =>
    simp only [EarlyStopping.on_epoch_end, hget] at hstop ⊢
    by_cases himp : es.op.apply (.fin (c - es.minDelta)) es.best = true
    · rw [if_pos himp] at hstop
      rw [hm] at hstop
      exact Bool.noConfusion hstop
    · rw [if_neg himp] at hstop ⊢
      by_cases hpat : es.patience ≤ es.wait + 1
      · simp only [if_pos hpat, hr, if_true] at hstop ⊢
        constructor
        · simp
        · intro w hw
          simp [hw]
      · simp only [if_neg hpat] at hstop
        rw [hm] at hstop
        exact Bool.noConfusion hstop

/-- C9 amended: with `restore_best_weights=True`, *provided the patience
trigger fires during the run* (the early-stop flag ends up set) and a
best-epoch snapshot exists, the model's weight state after training equals
that snapshot — the weights saved at the last improving epoch — not the
final epoch's weights.  (The original claim, quantified over every
monitored-value sequence, is refuted by
`earlyStopping_restore_not_applied_without_stop`: when the trigger never
fires the code leaves the final weights in place.) -/
theorem earlyStopping_restore_on_stop {W : Type} :
    ∀ (eps : List (Logs × W)) (es : ESState W) (m : ESModel W) (i : ℕ),
      es.restoreBestWeights = true → m.earlyStop = false →
      (EarlyStopping.drive es m i eps).2.1.earlyStop = true →
      ∀ w, (EarlyStopping.drive es m i eps).1.stateDict = some w →
        (EarlyStopping.drive es m i eps).2.1.weights = w := by
  intro eps
  induction eps with
  | nil =>
    intro es m i hr hm hstop w hsd
    rw [EarlyStopping.drive] at hstop
    rw [hm] at hstop
    exact Bool.noConfusion hstop
  | cons e rest ih =>
    intro es m i hr hm hstop w hsd
    obtain ⟨lg, wt⟩ := e
    rw [EarlyStopping.drive] at hstop hsd ⊢
    rw [if_neg (by simp [hm])] at hstop hsd ⊢
    dsimp only at hstop hsd ⊢
    by_cases hs :
        (EarlyStopping.on_epoch_end es { m with weights := wt }
          i lg).model.earlyStop = true
    · rw [drive_of_stopped _ _ _ rest hs] at hstop hsd ⊢
      have step :=
        on_epoch_end_stop_restores es { m with weights := wt } i lg hr hm hs
      exact step.2 w (step.1 ▸ hsd)
    · have hrb := on_epoch_end_restore_eq es { m with weights := wt } i lg
      rw [hr] at hrb
      exact ih _ _ (i + 1) hrb (by simpa using hs) hstop w hsd

/-- Witness for C9 (amended): `esRestoreP1` improves at epoch 0 (snapshot of
weights `0`) and stops at epoch 1; the final weights are the snapshot. -/
theorem earlyStopping_restore_on_stop_witness :
    esRestoreP1Run.2.1.weights = 0 :=
  earlyStopping_restore_on_stop [(valLogs 1, 0), (valLogs 2, 1)]
    (EarlyStopping.on_train_begin esRestoreP1) ⟨5, false⟩ 0 (by decide) rfl
    (by simp [esRestoreP1, EarlyStopping.drive, EarlyStopping.on_train_begin,
      EarlyStopping.on_epoch_end, EarlyStopping.get_monitor_value,
      EarlyStopping.mk, logsGet, valLogs, XF.ltB, MOp.apply]) 0
    (by simp [esRestoreP1, EarlyStopping.drive, EarlyStopping.on_train_begin,
      EarlyStopping.on_epoch_end, EarlyStopping.get_monitor_value,
      EarlyStopping.mk, logsGet, valLogs, XF.ltB, MOp.apply])

/-- `appendLogs` grows the sequence at key `k` by the number of log entries
carrying that key. -/
theorem appendLogs_length (logs : List (String × ℚ)) :
    ∀ (h : String → List ℚ) (k : String),
      (History.appendLogs h logs k).length =
        (h k).length + logs.countP (fun kv => decide (k = kv.1)) := by
  induction logs with
  | nil => intro h k; rfl
  | cons kv rest ih =>
    intro h k
    rw [show History.appendLogs h (kv :: rest) =
      History.appendLogs (fun x => if x = kv.1 then h x ++ [kv.2] else h x)
        rest from rfl]
    rw [ih]
    by_cases hk : k = kv.1 <;> simp [hk, List.countP_cons] <;> omega

/-- In a dict (no duplicate keys) a key matches at most one entry. -/
theorem countP_key_of_nodup (k : String) (lg : List (String × ℚ))
    (hnd : (lg.map Prod.fst).Nodup) :
    lg.countP (fun kv => decide (k = kv.1)) =
      (if lg.any (fun kv => decide (k = kv.1)) then 1 else 0) := by
  induction lg with
  | nil => rfl
  | cons kv rest ih =>
    simp only [List.map_cons, List.nodup_cons] at hnd
    by_cases hk : k = kv.1
    · have hz : rest.countP (fun kv2 => decide (k = kv2.1)) = 0 := by
        rw [List.countP_eq_zero]
        intro a ha
        simp only [decide_eq_true_eq]
        intro h2
        have hm := List.mem_map_of_mem Prod.fst ha
        rw [← h2, hk] at hm
        exact hnd.1 hm
      simp [List.countP_cons, List.any_cons, hk, hz]
      intro a b ha h2
      exact hnd.1 (h2.symm ▸ List.mem_map_of_mem Prod.fst ha)
    · simp only [List.countP_cons, List.any_cons, decide_eq_false hk,
        Bool.false_or, ih hnd.2]
      simp

/-- The epoch-index list after running epochs `i, i+1, …`. -/
theorem runEpochs_epoch (ls : List (List (String × ℚ))) :
    ∀ (m : HModel) (i : ℕ),
      (History.runEpochs m i ls).epoch =
        m.epoch ++ List.range' i ls.length := by
  induction ls with
  | nil => intro m i; simp [History.runEpochs]
  | cons lg rest ih =>
    intro m i
    rw [History.runEpochs, ih]
    simp [History.on_epoch_end, History.on_epoch_begin, List.range'_succ]

/-- Each epoch whose (duplicate-free) logs carry key `k` adds two recorded
values at `k`: one from `on_epoch_begin` and one from `on_epoch_end`. -/
theorem runEpochs_history_length (ls : List (List (String × ℚ))) :
    ∀ (m : HModel) (i : ℕ) (k : String),
      (∀ lg ∈ ls, (lg.map Prod.fst).Nodup) →
      ((History.runEpochs m i ls).history k).length =
        (m.history k).length +
          2 * ls.countP (fun lg => lg.any (fun kv => decide (k = kv.1))) := by
  induction ls with
  | nil => intro m i k _; simp [History.runEpochs]
  | cons lg rest ih =>
    intro m i k hnd
    rw [History.runEpochs,
      ih _ _ _ (fun x hx => hnd x (List.mem_cons_of_mem lg hx))]
    simp only [History.on_epoch_end, History.on_epoch_begin]
    rw [appendLogs_length, appendLogs_length]
    rw [countP_key_of_nodup k lg (hnd lg (List.mem_cons_self lg rest))]
    by_cases ha : lg.any (fun kv => decide (k = kv.1)) <;>
      simp [ha, List.countP_cons] <;> omega

/-- C3: after `on_train_begin` and `N` epochs of `on_epoch_begin` /
`on_epoch_end` with the same per-epoch logs supplied to both hooks, the
model's epoch-index list equals `[0..N-1]` in order, and for every metric
key the recorded sequence has length twice the number of epochs in whose
logs that key appeared (appended once at epoch begin and once at epoch
end). -/
theorem history_epoch_list_and_double_recording
    (ls : List (List (String × ℚ))) (m0 : HModel)
    (hnd : ∀ lg ∈ ls, (lg.map Prod.fst).Nodup) :
    (History.drive m0 ls).epoch = List.range ls.length ∧
    ∀ k, ((History.drive m0 ls).history k).length =
      2 * ls.countP (fun lg => lg.any (fun kv => decide (k = kv.1))) := by
  constructor
  · rw [History.drive, runEpochs_epoch]
    simp [History.on_train_begin, List.range_eq_range']
  · intro k
    rw [History.drive,
      runEpochs_history_length ls (History.on_train_begin m0) 0 k hnd]
    simp [History.on_train_begin]

/-- Witness for C3: two epochs where `loss` appears in both logs dicts (so
four recorded values) and the epoch list is `[0, 1]`, from an arbitrary
dirty starting model state. -/
theorem history_epoch_list_and_double_recording_witness :
    (History.drive ⟨[9], fun _ => [99]⟩ twoEpochLogs).epoch = List.range 2 ∧
      ((History.drive ⟨[9], fun _ => [99]⟩ twoEpochLogs).history
        "loss").length = 4 := by
  have h := history_epoch_list_and_double_recording twoEpochLogs
    ⟨[9], fun _ => [99]⟩ (by decide)
  refine ⟨h.1, ?_⟩
  rw [h.2 "loss"]
  rfl

/-- The fold inside `_save_group_lr` grows the sequence at key `k` by the
number of enumerated groups whose synthesized key is `k`. -/
theorem saveGroupLr_foldl_length (l : List (ℕ × ℚ)) (name : Option String) :
    ∀ (h : String → List ℚ) (k : String),
      ((l.foldl (fun h p => fun x =>
          if x = LRHistory.groupKey name p.1 then h x ++ [p.2] else h x)
        h) k).length =
        (h k).length +
          l.countP (fun p => decide (k = LRHistory.groupKey name p.1)) := by
  induction l with
  | nil => intro h k; rfl
  | cons p rest ih =>
    intro h k
    rw [List.foldl_cons, ih]
    by_cases hk : k = LRHistory.groupKey name p.1 <;>
      simp [hk, List.countP_cons] <;> omega

/-- `_save_group_lr` grows the sequence at key `k` by the number of groups
whose synthesized key is `k`. -/
theorem saveGroupLr_length (h : String → List ℚ) (groups : List ℚ)
    (name : Option String) (k : String) :
    (LRHistory.saveGroupLr h groups name k).length =
      (h k).length +
        (groups.enum).countP
          (fun p => decide (k = LRHistory.groupKey name p.1)) :=
  saveGroupLr_foldl_length groups.enum name h k

/-- `LRHistory.on_epoch_begin` does nothing after epoch 0. -/
theorem on_epoch_begin_pos (i : ℕ) (m : LRModel) (hi : i ≠ 0) :
    LRHistory.on_epoch_begin i m = m := by
  simp [LRHistory.on_epoch_begin, hi]

/-- At epoch 0 with a single non-cyclic scheduler, `on_epoch_begin` resets
the LR history and records one value per parameter group. -/
theorem on_epoch_begin_zero_nc (m : LRModel) (h1 : m.schedulerPresent = true)
    (h2 : LRHistory.multipleScheduler m = false) (h3 : m.cyclicLr = false) :
    LRHistory.on_epoch_begin 0 m =
      { m with lrHistory :=
          LRHistory.saveGroupLr (fun _ => []) m.paramGroups none } := by
  simp [LRHistory.on_epoch_begin, LRHistory.multipleScheduler, h1, h3]
  simp [LRHistory.multipleScheduler] at h2
  simp [h2]

/-- At epoch 0 with a single cyclic scheduler, `on_epoch_begin` only resets
the LR history. -/
theorem on_epoch_begin_zero_cyc (m : LRModel) (h1 : m.schedulerPresent = true)
    (h2 : LRHistory.multipleScheduler m = false) (h3 : m.cyclicLr = true) :
    LRHistory.on_epoch_begin 0 m = { m with lrHistory := fun _ => [] } := by
  simp [LRHistory.on_epoch_begin, LRHistory.multipleScheduler, h1, h3]
  simp [LRHistory.multipleScheduler] at h2
  simp [h2]

/-- With a single non-cyclic scheduler, `on_batch_end` records nothing. -/
theorem on_batch_end_nc (m : LRModel) (h1 : m.schedulerPresent = true)
    (h2 : LRHistory.multipleScheduler m = false) (h3 : m.cyclicLr = false) :
    LRHistory.on_batch_end m = m := by
  simp [LRHistory.on_batch_end, h1, h2, h3]

/-- With a single cyclic scheduler, `on_batch_end` records one value per
parameter group. -/
theorem on_batch_end_cyc (m : LRModel) (h1 : m.schedulerPresent = true)
    (h2 : LRHistory.multipleScheduler m = false) (h3 : m.cyclicLr = true) :
    LRHistory.on_batch_end m =
      { m with lrHistory :=
          LRHistory.saveGroupLr m.lrHistory m.paramGroups none } := by
  simp [LRHistory.on_batch_end, h1, h2, h3]

/-- At the final epoch (`epoch == n_epochs - 1`), `on_epoch_end` records
nothing. -/
theorem on_epoch_end_last (N i : ℕ) (m : LRModel) (hi : (i : ℤ) = (N : ℤ) - 1) :
    LRHistory.on_epoch_end N i m = m := by
  simp [LRHistory.on_epoch_end, hi]

/-- Before the final epoch with a single non-cyclic scheduler,
`on_epoch_end` records one value per parameter group. -/
theorem on_epoch_end_nc_rec (N i : ℕ) (m : LRModel)
    (h1 : m.schedulerPresent = true)
    (h2 : LRHistory.multipleScheduler m = false) (h3 : m.cyclicLr = false)
    (hi : (i : ℤ) ≠ (N : ℤ) - 1) :
    LRHistory.on_epoch_end N i m =
      { m with lrHistory :=
          LRHistory.saveGroupLr m.lrHistory m.paramGroups none } := by
  simp [LRHistory.on_epoch_end, h1, h2, h3, hi]

/-- With a single cyclic scheduler, `on_epoch_end` never records. -/
theorem on_epoch_end_cyc (N i : ℕ) (m : LRModel)
    (h2 : LRHistory.multipleScheduler m = false) (h3 : m.cyclicLr = true) :
    LRHistory.on_epoch_end N i m = m := by
  by_cases hi : (i : ℤ) = (N : ℤ) - 1
  · simp [LRHistory.on_epoch_end, hi]
  · simp [LRHistory.on_epoch_end, hi, h2, h3]

/-- Batch ends leave the model untouched for a single non-cyclic
scheduler. -/
theorem runBatches_nc (b : ℕ) :
    ∀ (m : LRModel), m.schedulerPresent = true →
      LRHistory.multipleScheduler m = false → m.cyclicLr = false →
      LRHistory.runBatches b m = m := by
  induction b with
  | zero => intro m _ _ _; rfl
  | succ b ih =>
    intro m h1 h2 h3
    rw [LRHistory.runBatches, on_batch_end_nc m h1 h2 h3]
    exact ih m h1 h2 h3

/-- `b` batch ends with a single cyclic scheduler preserve the scheduler
configuration and append `b` values per parameter group. -/
theorem runBatches_cyc (k : String) (b : ℕ) :
    ∀ (m : LRModel), m.schedulerPresent = true →
      LRHistory.multipleScheduler m = false → m.cyclicLr = true →
      (LRHistory.runBatches b m).schedulerPresent = true ∧
      LRHistory.multipleScheduler (LRHistory.runBatches b m) = false ∧
      (LRHistory.runBatches b m).cyclicLr = true ∧
      (LRHistory.runBatches b m).paramGroups = m.paramGroups ∧
      ((LRHistory.runBatches b m).lrHistory k).length =
        (m.lrHistory k).length + b * gcount m.paramGroups k := by
  induction b with
  | zero =>
    intro m h1 h2 h3
    exact ⟨h1, h2, h3, rfl, by simp [LRHistory.runBatches]⟩
  | succ b ih =>
    intro m h1 h2 h3
    rw [LRHistory.runBatches, on_batch_end_cyc m h1 h2 h3]
    obtain ⟨g1, g2, g3, g4, g5⟩ := ih
      { m with lrHistory :=
          LRHistory.saveGroupLr m.lrHistory m.paramGroups none } h1 h2 h3
    refine ⟨g1, g2, g3, g4, ?_⟩
    rw [g5]
    dsimp only
    rw [saveGroupLr_length]
    rw [show gcount m.paramGroups k =
      (m.paramGroups.enum).countP
        (fun p => decide (k = LRHistory.groupKey none p.1)) from rfl]
    ring

/-- Driving epochs `i .. N-1` (for `i ≥ 1`) with a single non-cyclic
scheduler appends one value per parameter group per epoch except the final
one. -/
theorem driveNC_tail (N : ℕ) (k : String) :
    ∀ (bs : List ℕ) (i : ℕ) (m : LRModel),
      m.schedulerPresent = true → LRHistory.multipleScheduler m = false →
      m.cyclicLr = false → 1 ≤ i → i + bs.length = N →
      ((LRHistory.drive N i m bs).lrHistory k).length =
        (m.lrHistory k).length + (bs.length - 1) * gcount m.paramGroups k := by
  intro bs
  induction bs with
  | nil =>
    intro i m _ _ _ _ _
    simp [LRHistory.drive]
  | cons b rest ih =>
    intro i m h1 h2 h3 hi hiN
    rw [LRHistory.drive]
    rw [on_epoch_begin_pos i m (by omega)]
    rw [runBatches_nc b m h1 h2 h3]
    rcases rest with _ | ⟨r, rs⟩
    · have hlast : (i : ℤ) = (N : ℤ) - 1 := by
        simp at hiN
        omega
      rw [on_epoch_end_last N i m hlast]
      simp [LRHistory.drive]
    · have hne : (i : ℤ) ≠ (N : ℤ) - 1 := by
        simp at hiN
        omega
      rw [on_epoch_end_nc_rec N i m h1 h2 h3 hne]
      rw [ih (i + 1)
        { m with lrHistory :=
            LRHistory.saveGroupLr m.lrHistory m.paramGroups none }
        h1 h2 h3 (by omega) (by simp at hiN ⊢; omega)]
      dsimp only
      rw [saveGroupLr_length]
      rw [show gcount m.paramGroups k =
        (m.paramGroups.enum).countP
          (fun p => decide (k = LRHistory.groupKey none p.1)) from rfl]
      simp [List.length_cons]
      ring

/-- Driving epochs from `i ≥ 1` with a single cyclic scheduler appends one
value per parameter group per batch. -/
theorem driveCyc_tail (N : ℕ) (k : String) :
    ∀ (bs : List ℕ) (i : ℕ) (m : LRModel),
      m.schedulerPresent = true → LRHistory.multipleScheduler m = false →
      m.cyclicLr = true → 1 ≤ i →
      ((LRHistory.drive N i m bs).lrHistory k).length =
        (m.lrHistory k).length + bs.sum * gcount m.paramGroups k := by
  intro bs
  induction bs with
  | nil =>
    intro i m _ _ _ _
    simp [LRHistory.drive]
  | cons b rest ih =>
    intro i m h1 h2 h3 hi
    rw [LRHistory.drive]
    rw [on_epoch_begin_pos i m (by omega)]
    obtain ⟨g1, g2, g3, g4, g5⟩ := runBatches_cyc k b m h1 h2 h3
    rw [on_epoch_end_cyc N i (LRHistory.runBatches b m) g2 g3]
    rw [ih (i + 1) (LRHistory.runBatches b m) g1 g2 g3 (by omega)]
    rw [g5, g4]
    rw [List.sum_cons]
    ring

/-- C4: with a single non-cyclic scheduler over `N ≥ 1` epochs, every
history key receives `N` values per matching parameter group in total (one
from epoch 0's begin and one from each epoch end except the final one);
`on_batch_end` never records, `on_epoch_begin` after epoch 0 does nothing,
and the final epoch's `on_epoch_end` does nothing. -/
theorem lrHistory_noncyclic_once_per_epoch (N : ℕ) (m : LRModel)
    (bs : List ℕ) (h1 : m.schedulerPresent = true)
    (h2 : LRHistory.multipleScheduler m = false) (h3 : m.cyclicLr = false)
    (hN : bs.length = N) (hpos : 1 ≤ N) :
    (∀ k, ((LRHistory.drive N 0 m bs).lrHistory k).length =
        N * gcount m.paramGroups k) ∧
    (∀ m2, m2.schedulerPresent = true →
      LRHistory.multipleScheduler m2 = false → m2.cyclicLr = false →
      LRHistory.on_batch_end m2 = m2) ∧
    (∀ m2 i, i ≠ 0 → LRHistory.on_epoch_begin i m2 = m2) ∧
    (∀ m2, LRHistory.on_epoch_end N (N - 1) m2 = m2) := by
  refine ⟨?_, fun m2 a b c => on_batch_end_nc m2 a b c,
    fun m2 i hi => on_epoch_begin_pos i m2 hi,
    fun m2 => on_epoch_end_last N (N - 1) m2 (by omega)⟩
  intro k
  rcases bs with _ | ⟨b, rest⟩
  · simp at hN
    omega
  · rw [LRHistory.drive]
    rw [on_epoch_begin_zero_nc m h1 h2 h3]
    set M1 : LRModel :=
      { m with lrHistory :=
          LRHistory.saveGroupLr (fun _ => []) m.paramGroups none } with hM1
    have e1 : M1.schedulerPresent = true := h1
    have e2 : LRHistory.multipleScheduler M1 = false := h2
    have e3 : M1.cyclicLr = false := h3
    rw [runBatches_nc b M1 e1 e2 e3]
    rcases rest with _ | ⟨r, rs⟩
    · have hN1 : N = 1 := by simpa using hN.symm
      rw [on_epoch_end_last N 0 M1 (by rw [hN1]; simp)]
      rw [show LRHistory.drive N 1 M1 [] = M1 from rfl]
      rw [hM1]
      dsimp only
      rw [saveGroupLr_length]
      rw [hN1]
      simp [gcount]
    · have hN2 : N = rs.length + 2 := by simpa using hN.symm
      have hne : ((0 : ℕ) : ℤ) ≠ (N : ℤ) - 1 := by omega
      rw [on_epoch_end_nc_rec N 0 M1 e1 e2 e3 hne]
      rw [driveNC_tail N k (r :: rs) 1
        { M1 with lrHistory :=
            LRHistory.saveGroupLr M1.lrHistory M1.paramGroups none }
        e1 e2 e3 le_rfl (by simp; omega)]
      dsimp only
      rw [saveGroupLr_length, saveGroupLr_length]
      rw [show gcount m.paramGroups k =
        (m.paramGroups.enum).countP
          (fun p => decide (k = LRHistory.groupKey none p.1)) from rfl]
      rw [hN2]
      simp [List.length_cons]
      ring

/-- C5: with a single cyclic scheduler, every history key receives exactly
one value per matching parameter group per `on_batch_end` call (total: the
sum of the per-epoch batch counts), and nothing is ever recorded at epoch
boundaries: `on_epoch_end` is the identity, `on_epoch_begin` after epoch 0
is the identity, and at epoch 0 it only resets the LR history log. -/
theorem lrHistory_cyclic_once_per_batch (N : ℕ) (m : LRModel) (bs : List ℕ)
    (h1 : m.schedulerPresent = true)
    (h2 : LRHistory.multipleScheduler m = false)
    (hset : m.cyclicLr = cyclicFlag m.schedulerName)
    (hmark : cyclicFlag m.schedulerName = true)
    (hN : bs.length = N) (hpos : 1 ≤ N) :
    (∀ k, ((LRHistory.drive N 0 m bs).lrHistory k).length =
        bs.sum * gcount m.paramGroups k) ∧
    (∀ m2 i, LRHistory.multipleScheduler m2 = false → m2.cyclicLr = true →
      LRHistory.on_epoch_end N i m2 = m2) ∧
    (∀ m2 i, i ≠ 0 → LRHistory.on_epoch_begin i m2 = m2) ∧
    (∀ m2, m2.schedulerPresent = true →
      LRHistory.multipleScheduler m2 = false → m2.cyclicLr = true →
      LRHistory.on_epoch_begin 0 m2 =
        { m2 with lrHistory := fun _ => [] }) := by
  have h3 : m.cyclicLr = true := by rw [hset, hmark]
  refine ⟨?_, fun m2 i a b => on_epoch_end_cyc N i m2 a b,
    fun m2 i hi => on_epoch_begin_pos i m2 hi,
    fun m2 a b c => on_epoch_begin_zero_cyc m2 a b c⟩
  intro k
  rcases bs with _ | ⟨b, rest⟩
  · simp at hN
    omega
  · rw [LRHistory.drive]
    rw [on_epoch_begin_zero_cyc m h1 h2 h3]
    obtain ⟨g1, g2, g3, g4, g5⟩ := runBatches_cyc k b
      { m with lrHistory := fun _ => [] } h1 h2 h3
    rw [on_epoch_end_cyc N 0 _ g2 g3]
    rw [driveCyc_tail N k rest 1 _ g1 g2 g3 le_rfl]
    rw [g5, g4]
    dsimp only
    rw [List.sum_cons]
    simp
    ring

/-- Witness for C4: two parameter groups, three epochs with batch counts
`[2, 5, 1]`: key `lr_0` records exactly 3 values. -/
theorem lrHistory_noncyclic_once_per_epoch_witness :
    ((LRHistory.drive 3 0 lrStep [2, 5, 1]).lrHistory "lr_0").length = 3 := by
  have h := (lrHistory_noncyclic_once_per_epoch 3 lrStep [2, 5, 1] rfl
    (by decide) rfl rfl (by decide)).1 "lr_0"
  rw [h]
  rfl

/-- Witness for C5: one parameter group, three epochs with batch counts
`[2, 5, 1]`: key `lr_0` records exactly 8 values, one per batch. -/
theorem lrHistory_cyclic_once_per_batch_witness :
    ((LRHistory.drive 3 0 lrCyc [2, 5, 1]).lrHistory "lr_0").length = 8 := by
  have h := (lrHistory_cyclic_once_per_batch 3 lrCyc [2, 5, 1] rfl
    (by decide) (by decide) (by decide) rfl (by decide)).1 "lr_0"
  rw [h]
  rfl

end Callbacks
